import Mathlib

/-!
Verification of the flag-binding and rendering engine of the `command`
library (github.com/arikkfir/command).

The definitions below are a shallow embedding of the Go sources:

* `fieldNameToFlagName`, `fieldNameToEnvVarName`, `flagNameToEnvVarName`
  from `util.go`;
* `goParseBool`, `goParseInt`, `goParseUint` model `strconv.ParseBool`,
  `strconv.ParseInt(s, 10, 64)` and `strconv.ParseUint(s, 10, 64)`;
* `flagDef.setValue` (value coercion, `flag.go`), including the silent
  truncation performed by `reflect.Value.SetInt`/`SetUint` when the parsed
  64-bit value is written into a narrower field;
* `mergedFlagDef.addFlagDef` (`merged_flag.go`);
* `flagSet.getMergedFlagDefs` and `flagSet.apply` (`flag_set.go`),
  including the single-pass scanner of Go stdlib `flag.FlagSet.Parse`
  that `apply` delegates to;
* the multi-line help right-column assembly of `printFlagsMultiLine`;
* `WrappingWriter` (`wrapping_writer.go`).

Strings are modelled at rune (Char) level; the Go code indexes identifier
bytes, which agrees with runes on ASCII input (Go struct field names and
flag names in this library are ASCII).  `unicode.IsUpper`/`ToLower` agree
with Lean's ASCII `Char.isUpper`/`Char.toLower` on ASCII input.
-/

/-- Helper mirroring `ptrOf`-style optional character predicates used when
the Go code inspects `fieldName[i-1]` / `fieldName[i-2]`. -/
def optIsUpper : Option Char → Bool
  | some c => c.isUpper
  | none => false

/-- Lower-case test on an optional previous character. -/
def optIsLower : Option Char → Bool
  | some c => c.isLower
  | none => false

/-- Loop body of `fieldNameToFlagName` (util.go).  `prev2`/`prev1` carry
`fieldName[i-2]`/`fieldName[i-1]`, `i` the current index, `result` the
accumulated output runes. -/
def fieldNameToFlagNameGo (prev2 prev1 : Option Char) (i : Nat) (result : List Char) :
    List Char → List Char
  | [] => result
  | r :: rest =>
    let result' :=
      if i = 0 then
        result ++ [r.toLower]
      else if r.isUpper then
        (if optIsLower prev1 then result ++ ['-'] else result) ++ [r.toLower]
      else
        (if 2 ≤ i ∧ optIsUpper prev1 ∧ optIsUpper prev2 then
          result.dropLast ++ ['-'] ++ result.getLast?.toList
        else
          result) ++ [r]
    fieldNameToFlagNameGo prev1 (some r) (i + 1) result' rest

/-- `fieldNameToFlagName` (util.go): lowercase-hyphen segmentation of a Go
field identifier, with the acronym rule that a run of uppercase letters
followed by a lowercase letter breaks before the run's last uppercase
letter. -/
def fieldNameToFlagName (fieldName : String) : String :=
  ⟨fieldNameToFlagNameGo none none 0 [] fieldName.data⟩

/-- Loop body of `fieldNameToEnvVarName` (util.go). -/
def fieldNameToEnvVarNameGo (prev2 prev1 : Option Char) (i : Nat) (result : List Char) :
    List Char → List Char
  | [] => result
  | r :: rest =>
    let result' :=
      if i = 0 then
        result ++ [r.toUpper]
      else if r.isUpper then
        (if optIsLower prev1 then result ++ ['_'] else result) ++ [r.toUpper]
      else
        (if 2 ≤ i ∧ optIsUpper prev1 ∧ optIsUpper prev2 then
          result.dropLast ++ ['_'] ++ result.getLast?.toList
        else
          result) ++ [r.toUpper]
    fieldNameToEnvVarNameGo prev1 (some r) (i + 1) result' rest

/-- `fieldNameToEnvVarName` (util.go): uppercase-underscore segmentation of
a Go field identifier, with the same acronym rule as the flag-name
derivation. -/
def fieldNameToEnvVarName (fieldName : String) : String :=
  ⟨fieldNameToEnvVarNameGo none none 0 [] fieldName.data⟩

/-- `flagNameToEnvVarName` (util.go): `strings.ReplaceAll(strings.ToUpper(s), "-", "_")`. -/
def flagNameToEnvVarName (flagName : String) : String :=
  ⟨flagName.data.map (fun c => if c.toUpper = '-' then '_' else c.toUpper)⟩

/-- C8: Field-identifier-to-flag-name derivation is lowercase-hyphen
segmentation and identifier-to-env-var derivation is uppercase-underscore
segmentation, with acronym runs broken before the run's last uppercase
letter: `ATeam` yields flag `a-team` and env var `A_TEAM`, and
`BrownFoxJUMPSOver` yields `brown-fox-jumps-over` and
`BROWN_FOX_JUMPS_OVER`. -/
theorem fieldName_derivation_examples :
    fieldNameToFlagName "ATeam" = "a-team" ∧
    fieldNameToEnvVarName "ATeam" = "A_TEAM" ∧
    fieldNameToFlagName "BrownFoxJUMPSOver" = "brown-fox-jumps-over" ∧
    fieldNameToEnvVarName "BrownFoxJUMPSOver" = "BROWN_FOX_JUMPS_OVER" := by
  refine ⟨?_, ?_, ?_, ?_⟩ <;> decide

/-! ## Value coercion (`flag.go`: `flagDef.setValue`) -/

/-- Cause of a `strconv` parse failure (`strconv.ErrSyntax` / `strconv.ErrRange`),
as unwrapped by `setValue` out of the `strconv.NumError`. -/
inductive ParseErrKind where
  | errSyn
  | errRange
deriving Repr, DecidableEq

/-- Error text of the unwrapped strconv cause. -/
def ParseErrKind.message : ParseErrKind → String
  | .errSyn => "invalid syntax"
  | .errRange => "value out of range"

/-- `ErrInvalidValue` (flag.go): offending literal, flag name and cause. -/
structure ErrInvalidValue where
  value : String
  flag : String
  cause : ParseErrKind
deriving Repr, DecidableEq

/-- `(*ErrInvalidValue).Error()`. -/
def ErrInvalidValue.message (e : ErrInvalidValue) : String :=
  "invalid value '" ++ e.value ++ "' for flag '" ++ e.flag ++ "': " ++ e.cause.message

/-- `strconv.ParseBool`: the exact set of accepted literals, written as the
equality chain the Go `switch str` performs. -/
def goParseBool (s : String) : Except ParseErrKind Bool :=
  if s = "1" ∨ s = "t" ∨ s = "T" ∨ s = "true" ∨ s = "TRUE" ∨ s = "True" then .ok true
  else if s = "0" ∨ s = "f" ∨ s = "F" ∨ s = "false" ∨ s = "FALSE" ∨ s = "False" then .ok false
  else .error .errSyn

/-- Decimal digit run to a number; `none` when empty or a non-digit occurs
(matching `strconv`'s base-10 digit scan, underscores rejected). -/
def decDigitsToNat : List Char → Option Nat
  | [] => none
  | cs => go cs 0
where
  go : List Char → Nat → Option Nat
    | [], acc => some acc
    | c :: rest, acc =>
      if c.isDigit then go rest (acc * 10 + (c.toNat - '0'.toNat)) else none

/-- `strconv.ParseInt(s, 10, 64)`: optional sign, base-10 digits, 64-bit
signed range check. -/
def goParseInt (s : String) : Except ParseErrKind Int :=
  match s.data with
  | [] => .error .errSyn
  | c :: rest =>
    let (neg, digits) :=
      if c = '+' then (false, rest)
      else if c = '-' then (true, rest)
      else (false, c :: rest)
    match decDigitsToNat digits with
    | none => .error .errSyn
    | some n =>
      let v : Int := if neg then -(n : Int) else (n : Int)
      if v < -(2 ^ 63) ∨ 2 ^ 63 - 1 < v then .error .errRange else .ok v

/-- `strconv.ParseUint(s, 10, 64)`: base-10 digits, no sign allowed, 64-bit
unsigned range check. -/
def goParseUint (s : String) : Except ParseErrKind Nat :=
  match decDigitsToNat s.data with
  | none => .error .errSyn
  | some n => if 2 ^ 64 - 1 < n then .error .errRange else .ok n

/-- Scalar field kinds supported by `flagDef.setValue` (flag.go).  The Go
`int`/`uint` kinds are 64-bit on the supported targets.  Slice fields (CSV
coercion) and float fields exist in the source but no claim is settled on
them alone, so they are not modelled. -/
inductive FieldKind where
  | kBool
  | kInt
  | kInt8
  | kInt16
  | kInt32
  | kInt64
  | kUint
  | kUint8
  | kUint16
  | kUint32
  | kUint64
  | kStr
deriving Repr, DecidableEq

/-- Bit width written by `reflect.Value.SetInt`/`SetUint` for each integer kind. -/
def FieldKind.bits : FieldKind → Nat
  | .kInt8 | .kUint8 => 8
  | .kInt16 | .kUint16 => 16
  | .kInt32 | .kUint32 => 32
  | _ => 64

/-- Two's-complement wrap of an `int64` value into `bits` bits: the silent
conversion `int8(x)`/`int16(x)`/... performed by `reflect.Value.SetInt`. -/
def wrapSigned (bits : Nat) (v : Int) : Int :=
  (v + 2 ^ (bits - 1)) % 2 ^ bits - 2 ^ (bits - 1)

/-- Unsigned wrap of a `uint64` value into `bits` bits (`reflect.Value.SetUint`). -/
def wrapUnsigned (bits : Nat) (v : Nat) : Nat :=
  v % 2 ^ bits

/-- A value as stored into a bound configuration field. -/
inductive GoValue where
  | vBool (b : Bool)
  | vInt (i : Int)
  | vUint (n : Nat)
  | vStr (s : String)
deriving Repr, DecidableEq

/-- One `case` arm of the `switch fv.Kind()` in `flagDef.setValue`
(flag.go): parse the text for the target field's kind and produce the value
that the `reflect` setter stores, or the error `setValue` returns.  Note
that the integer kinds parse at 64-bit width and the resulting value is
then silently wrapped to the field's width. -/
def coerceValue (k : FieldKind) (flagName s : String) : Except ErrInvalidValue GoValue :=
  match k with
  | .kBool =>
    match goParseBool s with
    | .error e => .error ⟨s, flagName, e⟩
    | .ok b => .ok (.vBool b)
  | .kInt | .kInt8 | .kInt16 | .kInt32 | .kInt64 =>
    match goParseInt s with
    | .error e => .error ⟨s, flagName, e⟩
    | .ok i => .ok (.vInt (wrapSigned k.bits i))
  | .kUint | .kUint8 | .kUint16 | .kUint32 | .kUint64 =>
    match goParseUint s with
    | .error e => .error ⟨s, flagName, e⟩
    | .ok n => .ok (.vUint (wrapUnsigned k.bits n))
  | .kStr => .ok (.vStr s)

/-! ## Flag descriptors (`flag.go`) and the merge engine (`merged_flag.go`) -/

/-- `flagInfo` (flag.go): the metadata shared by `flagDef` and
`mergedFlagDef`. -/
structure FlagInfo where
  name : String
  envVarName : Option String
  hasValue : Bool
  valueName : Option String
  description : Option String
  required : Option Bool
  defaultValue : String
deriving Repr, DecidableEq

/-- `flagDef` (flag.go).  A target binding is modelled as a store index
paired with the bound field's scalar kind (the information `reflect.Value`
carries for `setValue`). -/
structure FlagDef where
  info : FlagInfo
  inherited : Bool
  targets : List (Nat × FieldKind)
  applied : Bool
deriving Repr, DecidableEq

/-- The bound configuration fields, as a write-once-per-update store from
target index to last stored value. -/
def Store := List (Nat × GoValue)
deriving Repr, DecidableEq

/-- Write a value to a target field (newest write first). -/
def Store.set (st : Store) (idx : Nat) (v : GoValue) : Store :=
  (idx, v) :: st

/-- Read a target field (last write wins). -/
def Store.read : Store → Nat → Option GoValue
  | [], _ => none
  | (i, v) :: rest, idx => if i = idx then some v else Store.read rest idx

/-- `flagDef.setValue` (flag.go): coerce the text once per target and write
it into every target binding; on success mark the descriptor applied. -/
def FlagDef.setValue (fd : FlagDef) (st : Store) (sv : String) :
    Except ErrInvalidValue (FlagDef × Store) :=
  match go fd.info.name st fd.targets sv with
  | .error e => .error e
  | .ok st' => .ok ({ fd with applied := true }, st')
where
  go (flagName : String) (st : Store) (targets : List (Nat × FieldKind)) (sv : String) :
      Except ErrInvalidValue Store :=
    match targets with
    | [] => .ok st
    | (idx, k) :: rest =>
      match coerceValue k flagName sv with
      | .error e => .error e
      | .ok v => go flagName (st.set idx v) rest sv

/-- C5 (code evaluated at the failing input): coercing `"300"` into an
`int8`-bound flag does NOT return an out-of-range error naming the literal;
`setValue` parses at 64-bit width and `reflect.Value.SetInt` silently
truncates, storing `44` (`300 mod 256`, two's complement). -/
theorem setValue_int8_silently_truncates :
    FlagDef.setValue
        ⟨⟨"my-flag", none, true, none, none, none, "0"⟩, false, [(0, .kInt8)], false⟩
        [] "300"
      = .ok (⟨⟨"my-flag", none, true, none, none, none, "0"⟩, false, [(0, .kInt8)], true⟩,
             [(0, .vInt 44)]) := by
  rfl

/-- C6 counterexample: `setValue` on a boolean target accepts the truthy
string `"1"` (via `strconv.ParseBool`) and stores `true`, contradicting the
claim that every input other than case-insensitive `true`/`false` errors. -/
theorem setValue_bool_accepts_one :
    FlagDef.setValue
        ⟨⟨"my-flag", none, false, none, none, none, "false"⟩, false, [(0, .kBool)], false⟩
        [] "1"
      = .ok (⟨⟨"my-flag", none, false, none, none, none, "false"⟩, false, [(0, .kBool)], true⟩,
             [(0, .vBool true)]) := by
  rfl

/-- C6 amended: boolean coercion accepts exactly the twelve
`strconv.ParseBool` literals — `1,t,T,TRUE,true,True` (storing `true`) and
`0,f,F,FALSE,false,False` (storing `false`); every other string (including
other case mixtures such as `tRuE`, and truthy words such as `yes`) is a
syntax error carrying the offending literal and flag name. -/
theorem coerce_bool_exactly_parsebool_forms (flagName s : String) :
    (coerceValue .kBool flagName s
        = .ok (.vBool true) ↔ s ∈ ["1", "t", "T", "true", "TRUE", "True"]) ∧
    (coerceValue .kBool flagName s
        = .ok (.vBool false) ↔ s ∈ ["0", "f", "F", "false", "FALSE", "False"]) ∧
    ((coerceValue .kBool flagName s).isOk = false →
      coerceValue .kBool flagName s = .error ⟨s, flagName, .errSyn⟩) := by
  unfold coerceValue goParseBool
  split_ifs with h1 h2
  · rcases h1 with h | h | h | h | h | h <;> subst h <;> simp [Except.isOk, Except.toBool]
  · rcases h2 with h | h | h | h | h | h <;> subst h <;> simp [Except.isOk, Except.toBool]
  · simp_all [Except.isOk, Except.toBool]

/-- Errors produced by `mergedFlagDef.addFlagDef` (merged_flag.go); each
constructor carries the flag name and, where the Go message includes them,
the incoming and expected attribute values. -/
inductive MergeErr where
  | incompatibleName (given expected : String)
  | incompatibleEnvVar (flag given expected : String)
  | mustHaveValue (flag : String)
  | mustNotHaveValue (flag : String)
  | incompatibleValueName (flag given expected : String)
  | incompatibleDescription (flag : String)
  | incompatiblyOptional (flag : String)
  | incompatibleDefault (flag given expected : String)
deriving Repr, DecidableEq

/-- Exact error text built by the `fmt.Errorf` calls in `addFlagDef`. -/
def MergeErr.message : MergeErr → String
  | .incompatibleName g e =>
    "given flag '" ++ g ++ "' has incompatible name - must be '" ++ e ++ "'"
  | .incompatibleEnvVar f g e =>
    "flag '" ++ f ++ "' has incompatible environment variable name '" ++ g ++
      "' - must be '" ++ e ++ "'"
  | .mustHaveValue f => "given flag '" ++ f ++ "' must have a value, but it does not"
  | .mustNotHaveValue f => "given flag '" ++ f ++ "' must not have a value, but it does"
  | .incompatibleValueName f g e =>
    "flag '" ++ f ++ "' has incompatible value-name '" ++ g ++ "' - must be '" ++ e ++ "'"
  | .incompatibleDescription f => "flag '" ++ f ++ "' has incompatible description"
  | .incompatiblyOptional f => "flag '" ++ f ++ "' is incompatibly optional - must be required"
  | .incompatibleDefault f g e =>
    "flag '" ++ f ++ "' has incompatible default value '" ++ g ++ "' - must be '" ++ e ++ "'"

/-- `mergedFlagDef` (merged_flag.go). -/
structure MergedFlagDef where
  info : FlagInfo
  applied : Bool
  flagDefs : List FlagDef
deriving Repr, DecidableEq

/-- The fresh `mergedFlagDef` literal built in `getMergedFlagDefs`
(flag_set.go) for the first descriptor of a name: copies the descriptor's
`flagInfo` (the `Inherited` bit is not part of `flagInfo`). -/
def mkMergedFlagDef (fd : FlagDef) : MergedFlagDef :=
  { info := fd.info, applied := false, flagDefs := [fd] }

/-- `mergedFlagDef.addFlagDef` (merged_flag.go): sequential
attribute-by-attribute merge.  An attribute unset (`nil`) in the
accumulator is filled from the incoming descriptor; set-vs-set mismatches
fail — except `required`, where only an incoming explicit `false` against a
required accumulator fails. -/
def MergedFlagDef.addFlagDef (mfd : MergedFlagDef) (fd : FlagDef) :
    Except MergeErr MergedFlagDef := do
  if fd.info.name ≠ mfd.info.name then
    throw (.incompatibleName fd.info.name mfd.info.name)
  let envVarName ←
    match mfd.info.envVarName, fd.info.envVarName with
    | none, v => pure v
    | some e, none => pure (some e)
    | some e, some g =>
      if e ≠ g then throw (.incompatibleEnvVar fd.info.name g e) else pure (some e)
  if fd.info.hasValue ≠ mfd.info.hasValue then
    if mfd.info.hasValue then throw (.mustHaveValue fd.info.name)
    else throw (.mustNotHaveValue fd.info.name)
  let valueName ←
    match mfd.info.valueName, fd.info.valueName with
    | none, v => pure v
    | some e, none => pure (some e)
    | some e, some g =>
      if e ≠ g then throw (.incompatibleValueName fd.info.name g e) else pure (some e)
  let description ←
    match mfd.info.description, fd.info.description with
    | none, v => pure v
    | some e, none => pure (some e)
    | some e, some g =>
      if e ≠ g then throw (.incompatibleDescription fd.info.name) else pure (some e)
  let required ←
    match mfd.info.required, fd.info.required with
    | none, v => pure v
    | some e, none => pure (some e)
    | some e, some g =>
      if e ∧ ¬g then throw (.incompatiblyOptional fd.info.name) else pure (some e)
  if fd.info.defaultValue ≠ mfd.info.defaultValue then
    throw (.incompatibleDefault fd.info.name fd.info.defaultValue mfd.info.defaultValue)
  pure { mfd with
          info := { mfd.info with
                    envVarName := envVarName, valueName := valueName,
                    description := description, required := required },
          flagDefs := mfd.flagDefs ++ [fd] }

/-- C3 counterexample: two descriptors of the same name that both set the
`required` attribute to different values do NOT always fail to merge — with
an optional (`required=false`) accumulator and a `required=true` incoming
descriptor, `addFlagDef` succeeds (and silently keeps `required=false`). -/
theorem addFlagDef_required_conflict_order_sensitive :
    (MergedFlagDef.addFlagDef
        (mkMergedFlagDef
          ⟨⟨"my-flag", none, true, none, none, some false, ""⟩, false, [], false⟩)
        ⟨⟨"my-flag", none, true, none, none, some true, ""⟩, false, [], false⟩).isOk
      = true := by
  rfl

/-- C3 amended: folding two descriptors with identical metadata never
errors in either order; descriptors of the same name agreeing on all other
attributes but both setting the environment variable name, has-value,
value-name, or description to different values fail in either fold order
with the error naming the flag and that attribute; for `required`, only the
fold order with a required accumulator and an explicitly optional incoming
descriptor fails — the opposite order succeeds (the incoming
`required=true` is silently dropped). -/
theorem addFlagDef_merge_rules :
    (∀ (i : FlagInfo) (h₁ h₂ : Bool) (t₁ t₂ : List (Nat × FieldKind)) (a₁ a₂ : Bool),
      (MergedFlagDef.addFlagDef (mkMergedFlagDef ⟨i, h₁, t₁, a₁⟩) ⟨i, h₂, t₂, a₂⟩).isOk
        = true) ∧
    (∀ (i : FlagInfo) (a b : String), a ≠ b →
      MergedFlagDef.addFlagDef
          (mkMergedFlagDef ⟨{ i with envVarName := some a }, false, [], false⟩)
          ⟨{ i with envVarName := some b }, false, [], false⟩
        = .error (.incompatibleEnvVar i.name b a) ∧
      MergedFlagDef.addFlagDef
          (mkMergedFlagDef ⟨{ i with envVarName := some b }, false, [], false⟩)
          ⟨{ i with envVarName := some a }, false, [], false⟩
        = .error (.incompatibleEnvVar i.name a b)) ∧
    (∀ (i : FlagInfo),
      MergedFlagDef.addFlagDef
          (mkMergedFlagDef ⟨{ i with hasValue := true }, false, [], false⟩)
          ⟨{ i with hasValue := false }, false, [], false⟩
        = .error (.mustHaveValue i.name) ∧
      MergedFlagDef.addFlagDef
          (mkMergedFlagDef ⟨{ i with hasValue := false }, false, [], false⟩)
          ⟨{ i with hasValue := true }, false, [], false⟩
        = .error (.mustNotHaveValue i.name)) ∧
    (∀ (i : FlagInfo) (a b : String), a ≠ b →
      MergedFlagDef.addFlagDef
          (mkMergedFlagDef ⟨{ i with valueName := some a }, false, [], false⟩)
          ⟨{ i with valueName := some b }, false, [], false⟩
        = .error (.incompatibleValueName i.name b a)) ∧
    (∀ (i : FlagInfo) (a b : String), a ≠ b →
      MergedFlagDef.addFlagDef
          (mkMergedFlagDef ⟨{ i with description := some a }, false, [], false⟩)
          ⟨{ i with description := some b }, false, [], false⟩
        = .error (.incompatibleDescription i.name)) ∧
    (∀ (i : FlagInfo),
      MergedFlagDef.addFlagDef
          (mkMergedFlagDef ⟨{ i with required := some true }, false, [], false⟩)
          ⟨{ i with required := some false }, false, [], false⟩
        = .error (.incompatiblyOptional i.name) ∧
      (MergedFlagDef.addFlagDef
          (mkMergedFlagDef ⟨{ i with required := some false }, false, [], false⟩)
          ⟨{ i with required := some true }, false, [], false⟩).isOk = true) := by
  refine ⟨?_, ?_, ?_, ?_, ?_, ?_⟩
  · intro i h₁ h₂ t₁ t₂ a₁ a₂
    obtain ⟨n, env, hv, vn, d, r, dv⟩ := i
    rcases env with _ | e <;> rcases vn with _ | v <;> rcases d with _ | ds <;>
      rcases r with _ | rq <;>
      simp [MergedFlagDef.addFlagDef, mkMergedFlagDef, Except.isOk, Except.toBool,
        pure, Except.pure, bind, Except.bind]
  · intro i a b hab
    obtain ⟨n, env, hv, vn, d, r, dv⟩ := i
    constructor <;>
      simp [MergedFlagDef.addFlagDef, mkMergedFlagDef, pure, Except.pure, bind,
        Except.bind, hab, Ne.symm hab]
  · intro i
    obtain ⟨n, env, hv, vn, d, r, dv⟩ := i
    rcases env with _ | e <;>
      constructor <;>
        simp [MergedFlagDef.addFlagDef, mkMergedFlagDef, pure, Except.pure, bind,
          Except.bind]
  · intro i a b hab
    obtain ⟨n, env, hv, vn, d, r, dv⟩ := i
    rcases env with _ | e <;>
      simp [MergedFlagDef.addFlagDef, mkMergedFlagDef, pure, Except.pure, bind,
        Except.bind, hab, Ne.symm hab]
  · intro i a b hab
    obtain ⟨n, env, hv, vn, d, r, dv⟩ := i
    rcases env with _ | e <;> rcases vn with _ | v <;>
      simp [MergedFlagDef.addFlagDef, mkMergedFlagDef, pure, Except.pure, bind,
        Except.bind, hab, Ne.symm hab]
  · intro i
    obtain ⟨n, env, hv, vn, d, r, dv⟩ := i
    rcases env with _ | e <;> rcases vn with _ | v <;> rcases d with _ | ds <;>
      constructor <;>
        simp [MergedFlagDef.addFlagDef, mkMergedFlagDef, Except.isOk, Except.toBool,
          pure, Except.pure, bind, Except.bind]

/-- Witness for `addFlagDef_merge_rules` at concrete inputs. -/
theorem addFlagDef_merge_rules_witness :
    MergedFlagDef.addFlagDef
        (mkMergedFlagDef
          ⟨⟨"my-flag", some "MY_FLAG", true, none, none, none, ""⟩, false, [], false⟩)
        ⟨⟨"my-flag", some "BAD_FLAG", true, none, none, none, ""⟩, false, [], false⟩
      = .error (.incompatibleEnvVar "my-flag" "BAD_FLAG" "MY_FLAG") :=
  ((addFlagDef_merge_rules.2.1
      ⟨"my-flag", none, true, none, none, none, ""⟩ "MY_FLAG" "BAD_FLAG"
      (by decide)).1)

/-! ## Multi-line help right column (`flag_set.go`: `printFlagsMultiLine`) -/

/-- The right-column text that `printFlagsMultiLine` (flag_set.go) writes
for one merged flag after the column padding: the description (when present
and non-empty), then the default-value and environment-variable parts,
threaded through the `sep` variable exactly as the source does. -/
def flagRightColumn (description : Option String) (defaultValue : String)
    (envVarName : Option String) : String :=
  let hasDescription : Bool :=
    match description with
    | some d => d != ""
    | none => false
  let out₀ := if hasDescription then description.getD "" else ""
  let sep₀ := if hasDescription then " (" else ""
  let (out₁, sep₁) :=
    if defaultValue ≠ "" then
      ((if sep₀ ≠ "" then out₀ ++ sep₀ else out₀) ++ "default value: " ++ defaultValue, ", ")
    else (out₀, sep₀)
  let out₂ :=
    match envVarName with
    | some e => (if sep₁ ≠ "" then out₁ ++ sep₁ else out₁) ++ "environment variable: " ++ e
    | none => out₁
  if hasDescription then out₂ ++ ")" else out₂

/-- C7 counterexample: with no description, a non-empty default value `5`
and environment variable `FOO`, the right column reads
`default value: 5, environment variable: FOO` — comma-joined, not
space-joined as the claim states. -/
theorem flagRightColumn_no_desc_comma_joined :
    flagRightColumn none "5" (some "FOO")
        = "default value: 5, environment variable: FOO" ∧
    flagRightColumn none "5" (some "FOO")
        ≠ "default value: 5 environment variable: FOO" := by
  refine ⟨by rfl, by decide⟩

/-- Splitting a fused string literal, used to normalize help-text equalities. -/
theorem commaEnvSplit (x : String) :
    ", environment variable: " ++ x = ", " ++ ("environment variable: " ++ x) := by
  rw [← String.append_assoc]
  rfl

/-- Splitting a fused string literal, used to normalize help-text equalities. -/
theorem parenEnvSplit (x : String) :
    " (environment variable: " ++ x = " (" ++ ("environment variable: " ++ x) := by
  rw [← String.append_assoc]
  rfl

/-- Splitting a fused string literal, used to normalize help-text equalities. -/
theorem parenDefaultSplit (x : String) :
    " (default value: " ++ x = " (" ++ ("default value: " ++ x) := by
  rw [← String.append_assoc]
  rfl

/-- C7 amended: for a merged flag (whose environment-variable name is
always resolved to some `e`), the right column is the comma-joined list of
the present parts — `default value: X` when the default is non-empty, then
`environment variable: Y` — wrapped as `desc (…)` after the description
when a non-empty description exists, and printed bare (still comma-joined,
not space-joined) otherwise. -/
theorem flagRightColumn_assembly (description : Option String) (defaultValue e : String) :
    flagRightColumn description defaultValue (some e)
      = (let joined :=
          (if defaultValue ≠ "" then "default value: " ++ defaultValue ++ ", " else "") ++
            ("environment variable: " ++ e)
        match description with
        | some d => if d ≠ "" then d ++ " (" ++ joined ++ ")" else joined
        | none => joined) := by
  rcases description with _ | d
  · by_cases hdv : defaultValue = "" <;>
      simp [flagRightColumn, hdv, String.append_assoc, commaEnvSplit, parenEnvSplit,
        parenDefaultSplit]
  · by_cases hdv : defaultValue = "" <;> by_cases hd : d = "" <;>
      simp [flagRightColumn, hdv, hd, String.append_assoc, commaEnvSplit, parenEnvSplit,
        parenDefaultSplit]

/-! ## Flag set and application pipeline (`flag_set.go`) -/

/-- `intForBool` (util.go). -/
def intForBool (b : Bool) : Nat := if b then 1 else 0

/-- `flagDef.isLessThan` (flag.go): total order over
(name, envVarName, hasValue, valueName, description, required,
defaultValue, inherited), unset sorting before set. -/
def FlagDef.isLessThan (a b : FlagDef) : Bool :=
  if a.info.name < b.info.name then true
  else if b.info.name < a.info.name then false
  else if a.info.envVarName.getD "" < b.info.envVarName.getD "" then true
  else if b.info.envVarName.getD "" < a.info.envVarName.getD "" then false
  else if intForBool a.info.hasValue < intForBool b.info.hasValue then true
  else if intForBool b.info.hasValue < intForBool a.info.hasValue then false
  else if a.info.valueName.getD "" < b.info.valueName.getD "" then true
  else if b.info.valueName.getD "" < a.info.valueName.getD "" then false
  else if a.info.description.getD "" < b.info.description.getD "" then true
  else if b.info.description.getD "" < a.info.description.getD "" then false
  else if intForBool (a.info.required.getD false) < intForBool (b.info.required.getD false)
    then true
  else if intForBool (b.info.required.getD false) < intForBool (a.info.required.getD false)
    then false
  else if a.info.defaultValue < b.info.defaultValue then true
  else if b.info.defaultValue < a.info.defaultValue then false
  else if intForBool a.inherited < intForBool b.inherited then true
  else false

/-- Insert into a list sorted by the strict order `lt`. -/
def insertSortedBy (lt : α → α → Bool) (x : α) : List α → List α
  | [] => [x]
  | y :: ys => if lt x y then x :: y :: ys else y :: insertSortedBy lt x ys

/-- Sort by the strict order `lt` (the Go code uses `sort.Slice`; all sort
keys occurring in a merged flag set are distinct, so any sort produces the
same list). -/
def sortBy (lt : α → α → Bool) : List α → List α
  | [] => []
  | x :: xs => insertSortedBy lt x (sortBy lt xs)

/-- One `flagSet` of the ancestor chain: its own flag descriptors and its
registered positional-argument targets (indices into the positional
store). -/
structure FlagSetLevel where
  flags : List FlagDef
  positionalsTargets : List Nat
deriving Repr, DecidableEq

/-- The chain walked by `getMergedFlagDefs`/`apply`: head is the invoked
command's `flagSet`, the tail its ancestors root-ward (`fs.parent` links). -/
abbrev FlagChain := List FlagSetLevel

/-- The descriptor collection pass of `getMergedFlagDefs` (flag_set.go):
the current flag set's descriptors unconditionally, ancestors' descriptors
only when `Inherited`. -/
def collectFlagDefs : FlagChain → List FlagDef
  | [] => []
  | cur :: parents =>
    cur.flags ++ (parents.map (fun lvl => lvl.flags.filter (·.inherited))).flatten

/-- Merge one descriptor into the name-keyed accumulation of
`getMergedFlagDefs`: first occurrence of a name creates the merged
descriptor, later occurrences fold in via `addFlagDef`. -/
def insertMergedFlagDef (acc : List MergedFlagDef) (fd : FlagDef) :
    Except MergeErr (List MergedFlagDef) :=
  match acc with
  | [] => .ok [mkMergedFlagDef fd]
  | mfd :: rest =>
    if mfd.info.name = fd.info.name then
      match mfd.addFlagDef fd with
      | .error e => .error e
      | .ok mfd' => .ok (mfd' :: rest)
    else
      match insertMergedFlagDef rest fd with
      | .error e => .error e
      | .ok rest' => .ok (mfd :: rest')

/-- Fold all collected descriptors into merged descriptors. -/
def foldMergedFlagDefs : List FlagDef → List MergedFlagDef →
    Except MergeErr (List MergedFlagDef)
  | [], acc => .ok acc
  | fd :: rest, acc =>
    match insertMergedFlagDef acc fd with
    | .error e => .error e
    | .ok acc' => foldMergedFlagDefs rest acc'

/-- The defaulting pass of `getMergedFlagDefs`: a still-unset env var name
is derived from the flag name, value-name defaults to `VALUE`, required to
`false`; the contributing descriptors are sorted by `isLessThan`. -/
def finalizeMergedFlagDef (mfd : MergedFlagDef) : MergedFlagDef :=
  { mfd with
    info := { mfd.info with
              envVarName :=
                match mfd.info.envVarName with
                | none => some (flagNameToEnvVarName mfd.info.name)
                | some e => some e,
              valueName :=
                match mfd.info.valueName with
                | none => some "VALUE"
                | some v => some v,
              required :=
                match mfd.info.required with
                | none => some false
                | some r => some r },
    flagDefs := sortBy FlagDef.isLessThan mfd.flagDefs }

/-- `flagSet.getMergedFlagDefs` (flag_set.go): collect, fold, default and
sort by flag name ascending. -/
def FlagSet.getMergedFlagDefs (chain : FlagChain) : Except MergeErr (List MergedFlagDef) :=
  match foldMergedFlagDefs (collectFlagDefs chain) [] with
  | .error e => .error e
  | .ok l =>
    .ok (sortBy (fun a b => a.info.name < b.info.name) (l.map finalizeMergedFlagDef))

/-- `mergedFlagDef.setValue` (merged_flag.go): mark applied, then write the
value through every contributing descriptor. -/
def MergedFlagDef.setValue (mfd : MergedFlagDef) (st : Store) (v : String) :
    Except ErrInvalidValue (MergedFlagDef × Store) :=
  match go mfd.flagDefs st v with
  | .error e => .error e
  | .ok (fds, st') => .ok ({ mfd with applied := true, flagDefs := fds }, st')
where
  go : List FlagDef → Store → String → Except ErrInvalidValue (List FlagDef × Store)
    | [], st, _ => .ok ([], st)
    | fd :: rest, st, v =>
      match fd.setValue st v with
      | .error e => .error e
      | .ok (fd', st') =>
        match go rest st' v with
        | .error e => .error e
        | .ok (rest', st'') => .ok (fd' :: rest', st'')

/-- `mergedFlagDef.isRequired` (merged_flag.go). -/
def MergedFlagDef.isRequired (mfd : MergedFlagDef) : Bool :=
  mfd.info.required.getD false

/-- `mergedFlagDef.isMissing` (merged_flag.go). -/
def MergedFlagDef.isMissing (mfd : MergedFlagDef) : Bool :=
  mfd.isRequired && !mfd.applied

/-- Errors surfaced by `flagSet.apply` (flag_set.go).  `unknownFlag` is the
`ErrUnknownFlag` that `apply` builds by matching the stdlib scanner's
`flag provided but not defined: -(name)` message; `helpRequested` is the
stdlib `flag.ErrHelp` for an undefined `--help`/`-h`, which the regexp does
not match and `apply` returns as-is; `cliValueInvalid` is a coercion error
reported through the scanner; `badFlagSyn`/`flagNeedsArg` are the scanner's
other errors, likewise returned as-is. -/
inductive ApplyErr where
  | mergeFailed (e : MergeErr)
  | defaultSeedFailed (flag : String) (e : ErrInvalidValue)
  | envValueInvalid (e : ErrInvalidValue)
  | badFlagSyn (arg : String)
  | helpRequested
  | unknownFlag (flag : String)
  | flagNeedsArg (flag : String)
  | cliValueInvalid (flag : String) (e : ErrInvalidValue)
  | requiredFlagMissing (flag : String)
deriving Repr, DecidableEq

/-- Error text of the `apply` errors whose message shape the sources fix
(`ErrUnknownFlag.Error`, `ErrRequiredFlagMissing.Error`,
`ErrInvalidValue.Error`). -/
def ApplyErr.message : ApplyErr → String
  | .mergeFailed e => e.message
  | .defaultSeedFailed f e =>
    "failed applying default value for flag '" ++ f ++ "': " ++ e.message
  | .envValueInvalid e => e.message
  | .badFlagSyn s => "bad flag syntax: " ++ s
  | .helpRequested => "flag: help requested"
  | .unknownFlag f => "unknown flag: --" ++ f
  | .flagNeedsArg f => "flag needs an argument: -" ++ f
  | .cliValueInvalid f e =>
    "invalid value " ++ e.value ++ " for flag -" ++ f ++ ": " ++ e.message
  | .requiredFlagMissing f => "required flag is missing: --" ++ f

/-- Environment map lookup (`envVars[name]`). -/
def lookupAssoc : List (String × String) → String → Option String
  | [], _ => none
  | (k, v) :: rest, key => if k = key then some v else lookupAssoc rest key

/-- The flag-definition loop of `apply` (flag_set.go, loop over
`mergedFlagDefs`): register each flag with the stdlib scanner, seed a
non-empty default value, then overlay the flag's environment variable if
present — so that CLI parsing, which runs afterwards, always wins. -/
def registerLoop (env : List (String × String)) :
    List MergedFlagDef → Store → Except ApplyErr (List MergedFlagDef × Store)
  | [], st => .ok ([], st)
  | mfd :: rest, st =>
    let seeded : Except ApplyErr (MergedFlagDef × Store) :=
      if mfd.info.defaultValue ≠ "" then
        match mfd.setValue st mfd.info.defaultValue with
        | .error e => .error (.defaultSeedFailed mfd.info.name e)
        | .ok r => .ok r
      else .ok (mfd, st)
    match seeded with
    | .error e => .error e
    | .ok (mfd₁, st₁) =>
      let overlaid : Except ApplyErr (MergedFlagDef × Store) :=
        match mfd₁.info.envVarName with
        | some en =>
          match lookupAssoc env en with
          | some v =>
            match mfd₁.setValue st₁ v with
            | .error e => .error (.envValueInvalid e)
            | .ok r => .ok r
          | none => .ok (mfd₁, st₁)
        | none => .ok (mfd₁, st₁)
      match overlaid with
      | .error e => .error e
      | .ok (mfd₂, st₂) =>
        match registerLoop env rest st₂ with
        | .error e => .error e
        | .ok (rest', st₃) => .ok (mfd₂ :: rest', st₃)

/-- Find a registered flag by name (stdlib `FlagSet` formal lookup). -/
def findMergedFlagDef : List MergedFlagDef → String → Option MergedFlagDef
  | [], _ => none
  | mfd :: rest, name =>
    if mfd.info.name = name then some mfd else findMergedFlagDef rest name

/-- Write a value through the named registered flag (the closure the
`Func`/`BoolFunc` registration captured), updating it in place. -/
def setMergedValueByName (mfds : List MergedFlagDef) (st : Store) (name v : String) :
    Except ErrInvalidValue (List MergedFlagDef × Store) :=
  match mfds with
  | [] => .ok ([], st)
  | mfd :: rest =>
    if mfd.info.name = name then
      match mfd.setValue st v with
      | .error e => .error e
      | .ok (mfd', st') => .ok (mfd' :: rest, st')
    else
      match setMergedValueByName rest st name v with
      | .error e => .error e
      | .ok (rest', st') => .ok (mfd :: rest', st')

/-- Split a flag token's name at the first `=` starting at index 1
(`parseOne`'s value extraction); the first name character is never a split
point. -/
def splitEqGo (n0 : Char) (ntail : List Char) : List Char × Option (List Char) :=
  go [n0] ntail
where
  go (acc : List Char) : List Char → List Char × Option (List Char)
    | [] => (acc, none)
    | c :: rest => if c = '=' then (acc, some rest) else go (acc ++ [c]) rest

/-- The single-pass scanner of Go stdlib `flag.FlagSet.Parse`/`parseOne`
that `apply` delegates to: stops at the first token that is not
`-`/`--`-prefixed (everything from it on is positional), consumes a lone
`--`, takes `--name=value` or, for value flags, `--name value`, and treats
no-value (boolean) flags as `--name` setting `"true"` (the `BoolFunc`
callback registered by `apply` ignores an explicit `=value` and always
writes `"true"`). -/
def parseLoop (mfds : List MergedFlagDef) (st : Store) (args : List String) :
    Except ApplyErr (List MergedFlagDef × Store × List String) :=
  match args with
  | [] => .ok (mfds, st, [])
  | s :: rest =>
    match s.data with
    | [] => .ok (mfds, st, s :: rest)
    | [_] => .ok (mfds, st, s :: rest)
    | c0 :: c1 :: cs =>
      if c0 ≠ '-' then .ok (mfds, st, s :: rest)
      else if c1 = '-' ∧ cs = [] then .ok (mfds, st, rest)
      else
        match if c1 = '-' then cs else c1 :: cs with
        | [] => .error (.badFlagSyn s)
        | n0 :: ntail =>
          if n0 = '-' ∨ n0 = '=' then .error (.badFlagSyn s)
          else
            let (nm, valueOpt) := splitEqGo n0 ntail
            let name : String := ⟨nm⟩
            match findMergedFlagDef mfds name with
            | none =>
              if name = "help" ∨ name = "h" then .error .helpRequested
              else .error (.unknownFlag name)
            | some mfd =>
              if mfd.info.hasValue = false then
                match setMergedValueByName mfds st name "true" with
                | .error e => .error (.cliValueInvalid name e)
                | .ok (mfds', st') => parseLoop mfds' st' rest
              else
                match valueOpt with
                | some v =>
                  match setMergedValueByName mfds st name ⟨v⟩ with
                  | .error e => .error (.cliValueInvalid name e)
                  | .ok (mfds', st') => parseLoop mfds' st' rest
                | none =>
                  match rest with
                  | [] => .error (.flagNeedsArg name)
                  | v :: rest' =>
                    match setMergedValueByName mfds st name v with
                    | .error e => .error (.cliValueInvalid name e)
                    | .ok (mfds', st') => parseLoop mfds' st' rest'

/-- The required-flag validation loop of `apply`: first merged flag still
missing, in sorted order. -/
def checkRequired : List MergedFlagDef → Option String
  | [] => none
  | mfd :: rest => if mfd.isMissing then some mfd.info.name else checkRequired rest

/-- The positional-argument target store (each registered `*[]string`). -/
def PosStore := List (Nat × List String)
deriving Repr, DecidableEq

/-- Read a positional target's final value. -/
def PosStore.read : PosStore → Nat → Option (List String)
  | [], _ => none
  | (i, v) :: rest, idx => if i = idx then some v else PosStore.read rest idx

/-- The positional broadcast loop of `apply`: walk the full chain and
assign the same remaining-argument slice to every registered target. -/
def broadcastPositionals (chain : FlagChain) (positionals : List String)
    (ps : PosStore) : PosStore :=
  chain.foldl
    (fun acc lvl =>
      lvl.positionalsTargets.foldl (fun a idx => (idx, positionals) :: a) acc)
    ps

/-- Result of a successful `apply`. -/
structure ApplyResult where
  mergedFlagDefs : List MergedFlagDef
  store : Store
  posStore : PosStore
  positionals : List String
deriving Repr, DecidableEq

/-- `flagSet.apply` (flag_set.go): normalize nil inputs, merge the chain,
register/seed/overlay each merged flag, parse the CLI arguments, validate
required flags, then broadcast the remaining positional arguments. -/
def FlagSet.apply (chain : FlagChain) (envVars : Option (List (String × String)))
    (args : Option (List String)) : Except ApplyErr ApplyResult :=
  match FlagSet.getMergedFlagDefs chain with
  | .error e => .error (.mergeFailed e)
  | .ok merged =>
    match registerLoop (envVars.getD []) merged [] with
    | .error e => .error e
    | .ok (merged₁, st₁) =>
      match parseLoop merged₁ st₁ (args.getD []) with
      | .error e => .error e
      | .ok (merged₂, st₂, positionals) =>
        match checkRequired merged₂ with
        | some f => .error (.requiredFlagMissing f)
        | none => .ok ⟨merged₂, st₂, broadcastPositionals chain positionals [], positionals⟩

/-! ## Execution outcome (`execute.go`: `ExecuteWithContext`) -/

/-- `ExitCodeSuccess` (execute.go). -/
def ExitCodeSuccess : Int := 0

/-- `ExitCodeError` (execute.go): generic error. -/
def ExitCodeError : Int := 1

/-- `ExitCodeMisconfiguration` (execute.go): user-input problem. -/
def ExitCodeMisconfiguration : Int := 2

/-- Modelled from the spec: the command's short usage-line renderer
(`PrintUsageLine`, whose body is not among the sources at hand — only its
call sites and the underlying `printFlagsSingleLine` are) reports the
usage synopsis built from the merged flag set and fails exactly when the
merged-flag computation fails, which is the sole error source of
`printFlagsSingleLine` (flag_set.go). -/
def printUsageLineOk (chain : FlagChain) : Bool :=
  (FlagSet.getMergedFlagDefs chain).isOk

/-- The control-flow skeleton of `ExecuteWithContext` (execute.go) after
command resolution: on an `apply` error the error and a usage line are
printed and the run returns `ExitCodeMisconfiguration` (or `ExitCodeError`
when even the usage line cannot be rendered) without invoking any pre-run
hook or action; on success, `--help` short-circuits with success, otherwise
the hooks and the action run and the exit code reflects the action's
outcome.  Returns the exit code and whether the hooks/action ran.
`helpIdx` is the store index of the command's built-in `help` field,
`actionFails` abstracts the user-supplied action's result. -/
def executeDecision (chain : FlagChain) (envVars : Option (List (String × String)))
    (args : Option (List String)) (helpIdx : Option Nat) (actionFails : Bool) :
    Int × Bool :=
  match FlagSet.apply chain envVars args with
  | .error _ =>
    if printUsageLineOk chain then (ExitCodeMisconfiguration, false)
    else (ExitCodeError, false)
  | .ok res =>
    let helpRequested : Bool :=
      match helpIdx with
      | some idx =>
        match res.store.read idx with
        | some (.vBool true) => true
        | _ => false
      | none => false
    if helpRequested then (ExitCodeSuccess, false)
    else if actionFails then (ExitCodeError, true)
    else (ExitCodeSuccess, true)

/-! ## Scenario flag chains and the precedence / required / positional claims -/

/-- A one-command chain with a single string flag `--f` bound to env var
`E`, compile-time default `d`, bound to field 0. -/
def precedenceChain (d : String) : FlagChain :=
  [⟨[⟨⟨"f", some "E", true, none, none, none, d⟩, false, [(0, .kStr)], false⟩], []⟩]

/-- The final value of the bound field at store index `idx` after a
successful `apply` (none when `apply` failed or the field was never
written, i.e. kept its compile-time value). -/
def applyStoreRead (chain : FlagChain) (envVars : Option (List (String × String)))
    (args : Option (List String)) (idx : Nat) : Option GoValue :=
  match FlagSet.apply chain envVars args with
  | .ok res => res.store.read idx
  | .error _ => none

/-- C1: `apply` resolves a flag's final value with precedence (low to high)
compile-time default, environment variable, CLI argument: for the string
flag `--f` bound to env var `E` with default `d`, `envVars={E: x}` and
`args=[--f=y]` leave the field as `y`; the same env with `args=[]` leaves
it as `x`; and with neither, the non-empty default `d` is seeded (an empty
default leaves the field untouched). -/
theorem apply_precedence (d x y : String) :
    ((FlagSet.apply (precedenceChain d) (some [("E", x)]) (some ["--f=" ++ y])).isOk
        = true ∧
      applyStoreRead (precedenceChain d) (some [("E", x)]) (some ["--f=" ++ y]) 0
        = some (.vStr y)) ∧
    ((FlagSet.apply (precedenceChain d) (some [("E", x)]) (some [])).isOk = true ∧
      applyStoreRead (precedenceChain d) (some [("E", x)]) (some []) 0
        = some (.vStr x)) ∧
    ((FlagSet.apply (precedenceChain d) (some []) (some [])).isOk = true ∧
      applyStoreRead (precedenceChain d) (some []) (some []) 0
        = (if d = "" then none else some (.vStr d))) := by
  obtain ⟨dl⟩ := d
  cases dl with
  | nil => exact ⟨⟨rfl, rfl⟩, ⟨rfl, rfl⟩, ⟨rfl, rfl⟩⟩
  | cons c cs =>
    have hne : (⟨c :: cs⟩ : String) ≠ "" := by
      intro h
      simp [String.ext_iff] at h
    refine ⟨⟨rfl, rfl⟩, ⟨rfl, rfl⟩, ⟨rfl, ?_⟩⟩
    rw [if_neg hne]
    rfl

/-- A one-command chain with a single required string flag named `f`, with
empty default value, bound to field 0. -/
def requiredFlagChain (f : String) : FlagChain :=
  [⟨[⟨⟨f, none, true, none, none, some true, ""⟩, false, [(0, .kStr)], false⟩], []⟩]

/-- C2: a required flag with empty default and no CLI/env value makes
`apply` fail with the required-flag-missing error naming the flag (message
`required flag is missing: --<name>`), and `ExecuteWithContext` then
prints the error plus a usage line and returns the misconfiguration exit
code (2), not the generic error code (1), without running any pre-run hook
or the action. -/
theorem apply_required_missing (f : String) :
    FlagSet.apply (requiredFlagChain f) none none = .error (.requiredFlagMissing f) ∧
    (ApplyErr.requiredFlagMissing f).message = "required flag is missing: --" ++ f ∧
    executeDecision (requiredFlagChain f) none none none false
      = (ExitCodeMisconfiguration, false) ∧
    ExitCodeMisconfiguration = 2 ∧ ExitCodeError = 1 := by
  exact ⟨rfl, rfl, rfl, rfl, rfl⟩

/-- C10: `apply` normalizes nil inputs before use — a nil environment map
or argument list behaves exactly like an empty one — and with both inputs
nil it succeeds, seeding only the (non-empty) default values. -/
theorem apply_nil_inputs_normalized :
    (∀ (chain : FlagChain) (args : Option (List String)),
      FlagSet.apply chain none args = FlagSet.apply chain (some []) args) ∧
    (∀ (chain : FlagChain) (envVars : Option (List (String × String))),
      FlagSet.apply chain envVars none = FlagSet.apply chain envVars (some [])) ∧
    (∀ d : String,
      (FlagSet.apply (precedenceChain d) none none).isOk = true ∧
      applyStoreRead (precedenceChain d) none none 0
        = (if d = "" then none else some (.vStr d))) := by
  refine ⟨fun chain args => rfl, fun chain envVars => rfl, fun d => ?_⟩
  obtain ⟨dl⟩ := d
  cases dl with
  | nil => exact ⟨rfl, rfl⟩
  | cons c cs =>
    have hne : (⟨c :: cs⟩ : String) ≠ "" := by
      intro h
      simp [String.ext_iff] at h
    refine ⟨rfl, ?_⟩
    rw [if_neg hne]
    rfl

/-- Reading after the inner positional-target fold: every target index
registered at the level receives the broadcast slice. -/
theorem posFold_read (ts : List Nat) (v : List String) (acc : PosStore) (idx : Nat) :
    PosStore.read (ts.foldl (fun a i => (i, v) :: a) acc) idx
      = if ts.contains idx then some v else acc.read idx := by
  induction ts generalizing acc with
  | nil => simp
  | cons t ts ih =>
    simp only [List.foldl_cons, ih, List.contains_cons]
    by_cases h2 : t = idx <;> by_cases h1 : ts.contains idx <;>
      (simp_all [PosStore.read]; try rw [if_neg (fun hh => h2 hh.symm)])

/-- Reading after the broadcast loop: a target registered anywhere in the
chain receives the broadcast slice, all others keep their prior value. -/
theorem broadcast_read (chain : FlagChain) (v : List String) (ps : PosStore) (idx : Nat) :
    PosStore.read (broadcastPositionals chain v ps) idx
      = if chain.any (fun lvl => lvl.positionalsTargets.contains idx) then some v
        else ps.read idx := by
  induction chain generalizing ps with
  | nil => simp [broadcastPositionals]
  | cons lvl rest ih =>
    show PosStore.read (broadcastPositionals rest v _) idx = _
    rw [ih, posFold_read]
    by_cases h2 : lvl.positionalsTargets.contains idx <;>
      by_cases h1 : rest.any (fun l => l.positionalsTargets.contains idx) <;>
        simp_all

/-- C4: after a successful `apply`, every positional-argument target
registered anywhere in the ancestor chain — not only at the invoked
command — holds the same final slice of remaining non-flag arguments. -/
theorem apply_broadcasts_positionals (chain : FlagChain)
    (envVars : Option (List (String × String))) (args : Option (List String))
    (res : ApplyResult) (h : FlagSet.apply chain envVars args = .ok res)
    (lvl : FlagSetLevel) (idx : Nat) (hlvl : lvl ∈ chain)
    (hidx : idx ∈ lvl.positionalsTargets) :
    res.posStore.read idx = some res.positionals := by
  unfold FlagSet.apply at h
  split at h
  · simp at h
  · split at h
    · simp at h
    · split at h
      · simp at h
      · split at h
        · simp at h
        · cases h
          dsimp only
          rw [broadcast_read, if_pos]
          exact List.any_eq_true.mpr ⟨lvl, hlvl, by simpa using hidx⟩

/-- A three-level command chain (deepest first), each level registering its
own positional-args target: fields 2, 1 and 0. -/
def chain3 : FlagChain := [⟨[], [2]⟩, ⟨[], [1]⟩, ⟨[], [0]⟩]

/-- Witness for `apply_broadcasts_positionals` on the three-level chain
invoked with two trailing non-flag tokens: the middle level's target holds
the identical positional slice. -/
theorem apply_broadcasts_positionals_witness :
    PosStore.read
        (ApplyResult.posStore
          ⟨[], [], [(0, ["p1", "p2"]), (1, ["p1", "p2"]), (2, ["p1", "p2"])],
            ["p1", "p2"]⟩) 1
      = some (ApplyResult.positionals
          ⟨[], [], [(0, ["p1", "p2"]), (1, ["p1", "p2"]), (2, ["p1", "p2"])],
            ["p1", "p2"]⟩) :=
  apply_broadcasts_positionals chain3 none (some ["p1", "p2"])
    ⟨[], [], [(0, ["p1", "p2"]), (1, ["p1", "p2"]), (2, ["p1", "p2"])], ["p1", "p2"]⟩
    (by rfl) ⟨[], [1]⟩ 1 (by decide) (by decide)

/-! ## Word wrapping (`wrapping_writer.go`) -/

/-- `unicode.IsSpace` on the Latin-1 range (the runes Go special-cases:
space, tab, newline, vertical tab, form feed, carriage return, NEL and
NBSP); further Unicode space categories do not occur in help text. -/
def goIsSpace (c : Char) : Bool :=
  c = ' ' ∨ c = '\t' ∨ c = '\n' ∨ c = '\x0b' ∨ c = '\x0c' ∨ c = '\r' ∨
    c = '\u0085' ∨ c = '\u00A0'

/-- `WrappingWriter` (wrapping_writer.go).  `pfx` is the source's
`linePrefix` field.  Rune buffer and counters; the Go code measures the
prefix in bytes and the buffer in runes, which coincide on the ASCII text
this library renders. -/
structure WrappingWriter where
  data : List Char
  width : Nat
  remainingToNextNewLine : Int
  pfx : String
deriving Repr, DecidableEq

/-- `NewWrappingWriter` (wrapping_writer.go): positive width required (the
Go `width <= 0` check; nonnegative widths are the representable ones
here). -/
def NewWrappingWriter (width : Nat) : Except String WrappingWriter :=
  if width = 0 then .error ("illegal width: " ++ toString width)
  else .ok ⟨[], width, (width : Int), ""⟩

/-- `WrappingWriter.SetLinePrefix` (wrapping_writer.go): the prefix must be
strictly shorter than the width and contain no newline. -/
def WrappingWriter.setLinePfx (w : WrappingWriter) (p : String) :
    Except String WrappingWriter :=
  if w.width ≤ p.length then
    .error ("invalid prefix '" ++ p ++ "': too larger for width " ++ toString w.width)
  else if p.data.contains '\n' then
    .error ("invalid prefix '" ++ p ++ "': cannot contain new lines")
  else .ok { w with pfx := p }

/-- One iteration of the backtracking loop in `Write`'s
`remainingToNextNewLine == 0` branch, at index `j`; `fallback` is the rest
of the scan (`j-1` downward), or the loop exit (which appends nothing) at
`j = 0`. -/
def wwWrapStep (w : WrappingWriter) (r : Char) (j : Nat) (fallback : WrappingWriter) :
    WrappingWriter :=
  match w.data.get? j with
  | none => w
  | some rr =>
    if rr = '\n' then
      { w with data := w.data ++ [r] }
    else if w.width ≤ w.data.length - j + w.pfx.length then
      { w with data := w.data ++ [r] }
    else if goIsSpace rr then
      let before := w.data.take (j + 1)
      let after := w.data.drop (j + 1)
      let rem : Int := (w.width : Int) - w.pfx.length - after.length - 1
      { w with
        data := before ++ ['\n'] ++ w.pfx.data ++ after ++ [r],
        remainingToNextNewLine := if rem < 0 then 0 else rem }
    else fallback

/-- The backtracking scan from index `j` down to `0`; if no newline, no
width-filling line and no whitespace is found the character is dropped
(the Go loop exits without appending). -/
def wwWrapChar (w : WrappingWriter) (r : Char) : Nat → WrappingWriter
  | 0 => wwWrapStep w r 0 w
  | j + 1 => wwWrapStep w r (j + 1) (wwWrapChar w r j)

/-- One rune of `WrappingWriter.Write` (wrapping_writer.go); `i` is the
rune's index within the current `Write` call. -/
def wwStep (w : WrappingWriter) (i : Nat) (r : Char) : WrappingWriter :=
  if r = '\n' then
    let base :=
      if w.data = [] ∨ (0 < i ∧ w.data.getLast? = some '\n') then
        w.data ++ w.pfx.data
      else w.data
    { w with data := base ++ ['\n'], remainingToNextNewLine := (w.width : Int) }
  else if w.remainingToNextNewLine = 0 then
    wwWrapChar w r (w.data.length - 1)
  else
    if w.data = [] ∨ w.data.getLast? = some '\n' then
      { w with
        data := w.data ++ w.pfx.data ++ [r],
        remainingToNextNewLine := w.remainingToNextNewLine - w.pfx.length - 1 }
    else
      { w with data := w.data ++ [r],
               remainingToNextNewLine := w.remainingToNextNewLine - 1 }

/-- The rune loop of `WrappingWriter.Write`. -/
def wwWriteAux (w : WrappingWriter) (i : Nat) : List Char → WrappingWriter
  | [] => w
  | r :: rest => wwWriteAux (wwStep w i r) (i + 1) rest

/-- `WrappingWriter.Write` for one call (Go also returns `(len(p), nil)`,
which no caller inspects). -/
def WrappingWriter.write (w : WrappingWriter) (p : String) : WrappingWriter :=
  wwWriteAux w 0 p.data

/-- `WrappingWriter.String`. -/
def WrappingWriter.output (w : WrappingWriter) : String := ⟨w.data⟩

theorem wwWriteAux_append (a b : List Char) (w : WrappingWriter) (i : Nat) :
    wwWriteAux w i (a ++ b) = wwWriteAux (wwWriteAux w i a) (i + a.length) b := by
  induction a generalizing w i with
  | nil => simp [wwWriteAux]
  | cons c cs ih =>
    simp [wwWriteAux, ih]
    ring_nf

theorem wwWriteAux_midline (cs : List Char) (w : WrappingWriter) (i : Nat)
    (hnl : ∀ c ∈ cs, c ≠ '\n') (hne : w.data ≠ [])
    (hlast : w.data.getLast? ≠ some '\n')
    (hrem : (cs.length : Int) ≤ w.remainingToNextNewLine) :
    wwWriteAux w i cs
      = { w with data := w.data ++ cs,
                 remainingToNextNewLine := w.remainingToNextNewLine - cs.length } := by
  induction cs generalizing w i with
  | nil =>
    simp [wwWriteAux]
  | cons c cs ih =>
    have hc : c ≠ '\n' := hnl c (List.mem_cons_self c cs)
    have hrem' : (cs.length : Int) + 1 ≤ w.remainingToNextNewLine := by
      push_cast [List.length_cons] at hrem
      omega
    have hrem0 : w.remainingToNextNewLine ≠ 0 := by omega
    show wwWriteAux (wwStep w i c) (i + 1) cs = _
    rw [wwStep, if_neg (by simp [hc]), if_neg hrem0,
      if_neg (by rintro (h | h); exacts [hne h, hlast h])]
    rw [ih]
    · simp [List.append_assoc]
      omega
    · exact fun x hx => hnl x (List.mem_cons_of_mem c hx)
    · simp
    · rw [List.getLast?_concat]
      simp [hc]
    · simp
      omega



theorem wwWriteAux_linestart (cs : List Char) (w : WrappingWriter) (i : Nat)
    (hcs : cs ≠ []) (hnl : ∀ c ∈ cs, c ≠ '\n')
    (hrem : w.remainingToNextNewLine = (w.width : Int))
    (hstart : w.data = [] ∨ w.data.getLast? = some '\n')
    (hp : w.pfx.length < w.width) (hfit : cs.length + w.pfx.length ≤ w.width) :
    wwWriteAux w i cs
      = { w with data := w.data ++ w.pfx.data ++ cs,
                 remainingToNextNewLine :=
                   (w.width : Int) - w.pfx.length - cs.length } := by
  cases cs with
  | nil => exact absurd rfl hcs
  | cons c cs =>
    have hc : c ≠ '\n' := hnl c (List.mem_cons_self c cs)
    have hrem0 : w.remainingToNextNewLine ≠ 0 := by
      rw [hrem]
      omega
    show wwWriteAux (wwStep w i c) (i + 1) cs = _
    rw [wwStep, if_neg (by simp [hc]), if_neg hrem0, if_pos hstart]
    rw [wwWriteAux_midline]
    · simp [List.append_assoc, hrem]
      push_cast [List.length_cons] at hfit ⊢
      omega
    · exact fun x hx => hnl x (List.mem_cons_of_mem c hx)
    · simp
    · show (((w.data ++ w.pfx.data) ++ [c]).getLast? ≠ some '\n')
      rw [List.getLast?_concat]
      simp [hc]
    · show ((cs.length : Int) ≤ w.remainingToNextNewLine - w.pfx.length - 1)
      rw [hrem]
      push_cast [List.length_cons] at hfit ⊢
      omega

theorem wwStep_newline_midline (w : WrappingWriter) (i : Nat) (hne : w.data ≠ [])
    (hlast : w.data.getLast? ≠ some '\n') :
    wwStep w i '\n'
      = { w with data := w.data ++ ['\n'], remainingToNextNewLine := (w.width : Int) } := by
  rw [wwStep, if_pos rfl]
  simp [hne, hlast]

theorem wwStep_newline_linestart (w : WrappingWriter) (i : Nat)
    (hstart : w.data = [] ∨ (0 < i ∧ w.data.getLast? = some '\n')) :
    wwStep w i '\n'
      = { w with data := (w.data ++ w.pfx.data) ++ ['\n'],
                 remainingToNextNewLine := (w.width : Int) } := by
  rw [wwStep, if_pos rfl]
  simp only [if_pos hstart]

theorem intercalate_go_append (x : String) (s : String) (rest : List String) :
    ∀ (y : String),
      String.intercalate.go (x ++ y) s rest = x ++ String.intercalate.go y s rest := by
  induction rest with
  | nil =>
    intro y
    rw [String.intercalate.go, String.intercalate.go]
  | cons b bs ih =>
    intro y
    rw [String.intercalate.go, String.intercalate.go]
    rw [String.append_assoc, String.append_assoc]
    rw [ih (y ++ (s ++ b))]
    rw [String.append_assoc]

theorem intercalate_cons₂ (a b : String) (s : String) (rest : List String) :
    String.intercalate s (a :: b :: rest) = a ++ s ++ String.intercalate s (b :: rest) := by
  show String.intercalate.go a s (b :: rest) = _
  rw [String.intercalate.go]
  rw [String.append_assoc, intercalate_go_append a s rest (s ++ b)]
  rw [intercalate_go_append s s rest b]
  rw [String.append_assoc]
  rfl

theorem intercalate_singleton (l : String) (s : String) :
    String.intercalate s [l] = l := by
  show String.intercalate.go l s [] = l
  rw [String.intercalate.go]

def prefixLines (p : String) : List String → List String
  | [] => []
  | [l] => if l = "" then [""] else [p ++ l]
  | l :: l₂ :: rest => (p ++ l) :: prefixLines p (l₂ :: rest)

theorem emptyStringData : ("" : String).data = [] := rfl

theorem prefixLines_ne_nil (p : String) (l : String) (ls : List String) :
    prefixLines p (l :: ls) ≠ [] := by
  cases ls with
  | nil =>
    by_cases h : l = "" <;> simp [prefixLines, h]
  | cons b bs => simp [prefixLines]

theorem intercalate_cons_ne_nil (a s : String) (ls : List String) (h : ls ≠ []) :
    String.intercalate s (a :: ls) = a ++ s ++ String.intercalate s ls := by
  cases ls with
  | nil => exact absurd rfl h
  | cons b bs => exact intercalate_cons₂ a b s bs

theorem wwWriteAux_lines (p : String) (lines : List String) :
    ∀ (w : WrappingWriter) (i : Nat),
      w.pfx = p →
      w.remainingToNextNewLine = (w.width : Int) →
      (w.data = [] ∨ (w.data.getLast? = some '\n' ∧ 0 < i)) →
      p.length < w.width →
      (∀ l ∈ lines, (∀ c ∈ l.data, c ≠ '\n') ∧ l.length + p.length ≤ w.width) →
      (wwWriteAux w i (String.intercalate "\n" lines).data).data
        = w.data ++ (String.intercalate "\n" (prefixLines p lines)).data := by
  induction lines with
  | nil =>
    intro w i hpfx hrem hstart hp hlines
    show (wwWriteAux w i ("" : String).data).data = w.data ++ ("" : String).data
    simp [wwWriteAux, emptyStringData]
  | cons l tail ih =>
    intro w i hpfx hrem hstart hp hlines
    have hstart' : w.data = [] ∨ w.data.getLast? = some '\n' := by
      rcases hstart with h | ⟨h, _⟩
      · exact Or.inl h
      · exact Or.inr h
    have hl := hlines l (List.mem_cons_self l tail)
    cases tail with
    | nil =>
      rw [intercalate_singleton]
      by_cases hle : l = ""
      · subst hle
        show (wwWriteAux w i ("" : String).data).data = _
        simp [wwWriteAux, emptyStringData, prefixLines, intercalate_singleton]
      · have hld : l.data ≠ [] := by
          intro hd
          refine hle ?_
          cases l
          subst hd
          rfl
        rw [wwWriteAux_linestart l.data w i hld hl.1 hrem hstart' (hpfx ▸ hp)
          (by rw [hpfx]; exact hl.2)]
        show (w.data ++ w.pfx.data ++ l.data) = _
        rw [show prefixLines p [l] = [p ++ l] from by simp [prefixLines, hle]]
        rw [intercalate_singleton]
        show _ = w.data ++ (p.data ++ l.data)
        rw [hpfx, List.append_assoc]
    | cons l₂ rest =>
      rw [intercalate_cons₂]
      show (wwWriteAux w i
          ((l ++ "\n").data ++ (String.intercalate "\n" (l₂ :: rest)).data)).data = _
      rw [wwWriteAux_append]
      have htail : ∀ x ∈ l₂ :: rest,
          (∀ c ∈ x.data, c ≠ '\n') ∧ x.length + p.length ≤ w.width :=
        fun x hx => hlines x (List.mem_cons_of_mem l hx)
      have hrhs : String.intercalate "\n" (prefixLines p (l :: l₂ :: rest))
          = (p ++ l) ++ "\n" ++ String.intercalate "\n" (prefixLines p (l₂ :: rest)) := by
        show String.intercalate "\n" ((p ++ l) :: prefixLines p (l₂ :: rest)) = _
        exact intercalate_cons_ne_nil _ _ _ (prefixLines_ne_nil p l₂ rest)
      by_cases hle : l = ""
      · subst hle
        have hw2 : wwWriteAux w i ("" ++ "\n").data = wwStep w i '\n' := rfl
        rw [hw2, wwStep_newline_linestart w i (by
          rcases hstart with h | ⟨h1, h2⟩
          · exact Or.inl h
          · exact Or.inr ⟨h2, h1⟩)]
        have hih := ih
          { data := (w.data ++ w.pfx.data) ++ ['\n'], width := w.width,
            remainingToNextNewLine := (w.width : Int), pfx := w.pfx }
          (i + ("" ++ "\n").data.length)
          hpfx rfl (Or.inr ⟨List.getLast?_concat _, by simp⟩) hp htail
        rw [hih, hrhs]
        simp [String.data_append, emptyStringData, hpfx, List.append_assoc]
      · have hld : l.data ≠ [] := by
          intro hd
          refine hle ?_
          cases l
          subst hd
          rfl
        have hsplit : (l ++ "\n").data = l.data ++ ['\n'] := rfl
        rw [hsplit, wwWriteAux_append]
        rw [wwWriteAux_linestart l.data w i hld hl.1 hrem hstart' (hpfx ▸ hp)
          (by rw [hpfx]; exact hl.2)]
        have hlastl : ((w.data ++ w.pfx.data ++ l.data).getLast? ≠ some '\n') := by
          rw [List.getLast?_append_of_ne_nil _ hld]
          intro hx
          exact hl.1 '\n' (List.mem_of_mem_getLast? hx) rfl
        have hw2 : wwWriteAux
            { data := w.data ++ w.pfx.data ++ l.data, width := w.width,
              remainingToNextNewLine :=
                (w.width : Int) - w.pfx.length - l.data.length, pfx := w.pfx }
            (i + l.data.length) ['\n']
            = wwStep
              { data := w.data ++ w.pfx.data ++ l.data, width := w.width,
                remainingToNextNewLine :=
                  (w.width : Int) - w.pfx.length - l.data.length, pfx := w.pfx }
              (i + l.data.length) '\n' := rfl
        rw [hw2, wwStep_newline_midline _ _ (by simp [hld]) hlastl]
        have hih := ih
          { data := (w.data ++ w.pfx.data ++ l.data) ++ ['\n'], width := w.width,
            remainingToNextNewLine := (w.width : Int), pfx := w.pfx }
          (i + (l.data ++ ['\n']).length)
          hpfx rfl (Or.inr ⟨List.getLast?_concat _, by simp⟩) hp htail
        dsimp only at hih ⊢
        rw [hih, hrhs]
        simp [String.data_append, hpfx, List.append_assoc]

/-- C9 counterexample: with width `4` and line prefix `xx`, writing the
single line `a b` — narrower than the configured width — still introduces a
line break (because the prefix consumes part of the width budget), so the
output is not the input with the prefix inserted at line starts. -/
theorem wrapping_narrow_line_splits_with_prefix_budget :
    (match NewWrappingWriter 4 with
      | .ok w0 =>
        match w0.setLinePfx "xx" with
        | .ok w1 => some ((w1.write "a b").output)
        | .error _ => none
      | .error _ => none) = some "xxa \nxxb" ∧
    "xxa \nxxb" ≠ "xxa b" := by
  exact ⟨rfl, by decide⟩

/-- C9 amended: for a writer built by `NewWrappingWriter` and
`SetLinePrefix`, if every line of the text fits in the width net of the
prefix (line length plus prefix length at most the width), the written
output is byte-identical to the input except that the active line prefix is
inserted at the start of each line (only at existing newlines, the final
empty segment of a trailing newline excepted); no additional breaks are
introduced. -/
theorem wrapping_prefix_fitting_lines_byte_identical (W : Nat) (p : String)
    (lines : List String) (w0 w1 : WrappingWriter)
    (h0 : NewWrappingWriter W = .ok w0) (h1 : w0.setLinePfx p = .ok w1)
    (hlines : ∀ l ∈ lines, (∀ c ∈ l.data, c ≠ '\n') ∧ l.length + p.length ≤ W) :
    (w1.write (String.intercalate "\n" lines)).output
      = String.intercalate "\n" (prefixLines p lines) := by
  unfold NewWrappingWriter at h0
  split at h0
  · simp at h0
  · cases h0
    unfold WrappingWriter.setLinePfx at h1
    split at h1
    · simp at h1
    · split at h1
      · simp at h1
      · cases h1
        next hlen hnl =>
          have hmain := wwWriteAux_lines p lines
            { data := [], width := W, remainingToNextNewLine := (W : Int), pfx := p } 0
            rfl rfl (Or.inl rfl) (by dsimp only at hlen ⊢; omega) hlines
          show (⟨(wwWriteAux _ 0 (String.intercalate "\n" lines).data).data⟩ : String) = _
          rw [hmain]
          show (⟨[] ++ (String.intercalate "\n" (prefixLines p lines)).data⟩ : String) = _
          rw [List.nil_append]

/-- Witness for `wrapping_prefix_fitting_lines_byte_identical`: width 10,
prefix of two spaces, two short lines. -/
theorem wrapping_prefix_fitting_lines_witness :
    ((⟨[], 10, (10 : Int), "  "⟩ : WrappingWriter).write
        (String.intercalate "\n" ["ab", "cd"])).output
      = String.intercalate "\n" (prefixLines "  " ["ab", "cd"]) :=
  wrapping_prefix_fitting_lines_byte_identical 10 "  " ["ab", "cd"]
    ⟨[], 10, (10 : Int), ""⟩ ⟨[], 10, (10 : Int), "  "⟩ (by rfl) (by rfl) (by decide)

/-- Witness for `coerce_bool_exactly_parsebool_forms`: the non-ParseBool
literal `yes` is rejected with a syntax error carrying the literal and the
flag name. -/
theorem coerce_bool_exactly_parsebool_forms_witness :
    coerceValue .kBool "my-flag" "yes" = .error ⟨"yes", "my-flag", .errSyn⟩ :=
  (coerce_bool_exactly_parsebool_forms "my-flag" "yes").2.2 (by decide)
